import Mathlib

/-
  Verification of the stacked-branch metadata protocol implemented in
  cmd/av/branch.go (functions `createBranch` and `branchMove`).

  The metadata store and the version-control adapter are external
  collaborators of that file; they are modelled here from the spec
  (sections 2, 6): the store is a name-keyed collection of Branch
  records with staged transactional writes, the adapter a record of
  the repository's observable branch state.
-/

namespace Av

/-- Mirrors `meta.PullRequest` as far as branch.go uses it (the number). -/
structure PullRequest where
  number : Nat
  deriving Repr, DecidableEq

/-- Mirrors `meta.BranchState`: parent name, whether the parent is trunk,
and the parent's head commit at adoption time (empty when trunk). -/
structure BranchState where
  name : String
  trunk : Bool
  head : String
  deriving Repr, DecidableEq

/-- Mirrors `meta.Branch`: the unit of metadata, keyed by `name`. -/
structure Branch where
  name : String
  parent : BranchState
  pullRequest : Option PullRequest
  deriving Repr, DecidableEq

/-- The Go zero value of `meta.Branch`, used by `branchMove` when the old
branch has no record. -/
def Branch.zero : Branch :=
  { name := "", parent := { name := "", trunk := false, head := "" }, pullRequest := none }

/-- The transaction-visible branch collection (records keyed by name). -/
abbrev BranchList := List Branch

/-- Modelled from the spec: `Tx.get(branchName) -> Branch | notFound`
(`tx.Branch` in the source), lookup by record name. -/
def findBranch (s : BranchList) (n : String) : Option Branch :=
  match s with
  | [] => none
  | b :: t => if b.name = n then some b else findBranch t n

/-- Modelled from the spec: `Tx.set(Branch)` (`tx.SetBranch`), which stores
the record under its `name` key, replacing any record of that name. -/
def setBranch (s : BranchList) (b : Branch) : BranchList :=
  if (findBranch s b.name).isSome then
    s.map (fun x => if x.name = b.name then b else x)
  else
    s ++ [b]

/-- Modelled from the spec: `Tx.delete(branchName)` (`tx.DeleteBranch`). -/
def deleteBranch (s : BranchList) (n : String) : BranchList :=
  match s with
  | [] => []
  | b :: t => if b.name = n then deleteBranch t n else b :: deleteBranch t n

/-- Modelled from the spec: `Tx.childrenOf(branchName)` (`meta.Children`),
the records whose parent name equals the given name, computed over the
current transaction-visible state. -/
def childrenOf (s : BranchList) (n : String) : BranchList :=
  match s with
  | [] => []
  | b :: t => if b.parent.name = n then b :: childrenOf t n else childrenOf t n

/-- Modelled from the spec: the metadata store backing `meta.DB`.
`commitFails` is the nondeterminism oracle for `Tx.commit() -> error`:
a failed commit durably applies nothing. -/
structure MetaDB where
  branches : BranchList
  commitFails : Bool
  deriving Repr, DecidableEq

/-- Modelled from the spec: the version-control adapter's observable state.
`localBranches` pairs each local branch name with its head commit;
`remoteRefs` does the same for remote-tracking refs such as "origin/main". -/
structure GitRepo where
  localBranches : List (String × String)
  remoteRefs : List (String × String)
  currentBranch : String
  defaultBranch : String
  remoteName : String
  trunks : List String
  deriving Repr, DecidableEq

/-- Modelled from the spec: `revParse(ref) -> commitID | error`
(`repo.RevParse`); resolves a local branch or a remote-tracking ref,
failing on an unknown ref. -/
def GitRepo.revParse (r : GitRepo) (ref : String) : Option String :=
  match r.localBranches.find? (fun p => p.1 == ref) with
  | some p => some p.2
  | none => (r.remoteRefs.find? (fun p => p.1 == ref)).map (fun p => p.2)

/-- Modelled from the spec: `branchExists(name) -> bool`
(`repo.DoesBranchExist`). -/
def GitRepo.doesBranchExist (r : GitRepo) (n : String) : Bool :=
  (r.localBranches.find? (fun p => p.1 == n)).isSome

/-- Modelled from the spec: whether a name is a trunk branch
(`repo.IsTrunkBranch`). -/
def GitRepo.isTrunkBranch (r : GitRepo) (n : String) : Bool :=
  r.trunks.contains n

/-- Modelled from the spec: the adapter call made by `branchMove`,
`git branch -m <newName>` with a single argument, which renames the
currently checked-out branch to `newName`; it fails if a branch named
`newName` already exists. -/
def GitRepo.renameCurrent (r : GitRepo) (newName : String) : Option GitRepo :=
  if r.doesBranchExist newName then none
  else some { r with
    localBranches :=
      r.localBranches.map (fun p => if p.1 == r.currentBranch then (newName, p.2) else p),
    currentBranch := newName }

/-- Modelled from the spec: `checkoutBranch(name, {createNew: true,
startPoint: commitID})` (`repo.CheckoutBranch` with `NewBranch: true`);
creates the branch at the given commit and checks it out, failing if a
branch of that name already exists. -/
def GitRepo.checkoutNewBranch (r : GitRepo) (n : String) (startHash : String) : Option GitRepo :=
  if r.doesBranchExist n then none
  else some { r with
    localBranches := r.localBranches ++ [(n, startHash)],
    currentBranch := n }

/-- The distinct failure conditions of the two operations. -/
inductive AvError where
  /-- "the branch name should be NEW_BRANCH or OLD_BRANCH:NEW_BRANCH" -/
  | invalidName
  /-- "cannot rename branch to itself" -/
  | selfRename
  /-- `errParentNotAdopted` -/
  | parentNotAdopted
  /-- a `repo.RevParse` call failed on the given ref -/
  | revParseFailed (ref : String)
  /-- checkout of the new branch failed -/
  | checkoutFailed
  /-- `git branch -m` failed -/
  | gitRenameFailed
  /-- `tx.Commit` failed -/
  | commitFailed
  /-- `actions.ErrExitSilently` with the given exit code -/
  | exitSilently (code : Nat)
  deriving Repr, DecidableEq

inductive AvResult where
  | ok
  | err (e : AvError)
  deriving Repr, DecidableEq

/-- Result of an operation: the error status plus the final committed
states of the repository and of the metadata store. -/
structure Outcome where
  result : AvResult
  repo : GitRepo
  db : MetaDB
  deriving Repr, DecidableEq

/-- `strings.Count(s, ":")` for the single-character separator. -/
def countColons (s : String) : Nat :=
  s.toList.count ':'

/-- `strings.Cut(s, ":")`: the part before the first ':' and the part
after it. -/
def cutColon (s : String) : String × String :=
  let l := s.toList
  let pre := l.takeWhile (fun c => c ≠ ':')
  (pre.asString, (l.drop (pre.length + 1)).asString)

/-- Branch.go lines 229-238: the old/new pair of a rename argument —
`OLD:NEW` when a ':' is present, otherwise the currently checked-out
branch paired with the argument. -/
def parseMoveArg (repo : GitRepo) (arg : String) : String × String :=
  if (arg.toList.contains ':') then cutColon arg
  else (repo.currentBranch, arg)

/-- Branch.go lines 286-290: stage every child record with its parent
name rewritten to `newB`. -/
def stageChildren (t : BranchList) (cs : List Branch) (newB : String) : BranchList :=
  cs.foldl (fun acc c => setBranch acc { c with parent := { c.parent with name := newB } }) t

/-- Branch.go lines 251-261: the old branch's record, or — when absent —
the zero record given a trunk parent pointing at the default branch. -/
def moveBaseRecord (repo : GitRepo) (tx0 : BranchList) (oldBranch : String) : Branch :=
  match findBranch tx0 oldBranch with
  | some b => b
  | none =>
    { Branch.zero with
      parent := { name := repo.defaultBranch, trunk := true, head := "" } }

/-- Branch.go lines 281-283: the record a rename stages under the new
name — the base record with its pull request cleared and its name set to
the new name. -/
def moveStaged (repo : GitRepo) (tx0 : BranchList) (oldBranch newBranch : String) : Branch :=
  { moveBaseRecord repo tx0 oldBranch with pullRequest := none, name := newBranch }

/-- Branch.go lines 281-291: the staged store of a rename — the old record
re-staged under the new name with its pull request cleared, every child's
parent name rewritten, and the old key deleted. -/
def moveFinalTx (repo : GitRepo) (tx0 : BranchList) (oldBranch newBranch : String) : BranchList :=
  deleteBranch
    (stageChildren (setBranch tx0 (moveStaged repo tx0 oldBranch newBranch))
      (childrenOf (setBranch tx0 (moveStaged repo tx0 oldBranch newBranch)) oldBranch)
      newBranch)
    oldBranch

/-- `branchMove` (branch.go lines 218-317). The transaction is modelled by
the staged branch collection `moveFinalTx …`; every error return abandons
it (the cleanup's `tx.Abort`), so the committed store `db` is returned
unchanged on those paths. -/
def branchMove (repo : GitRepo) (db : MetaDB) (arg : String) (force : Bool) : Outcome :=
  if countColons arg > 1 then
    { result := .err .invalidName, repo := repo, db := db }
  else if (parseMoveArg repo arg).1 == (parseMoveArg repo arg).2 then
    { result := .err .selfRename, repo := repo, db := db }
  else if !force &&
      (moveBaseRecord repo db.branches (parseMoveArg repo arg).1).pullRequest.isSome then
    { result := .err (.exitSilently 127), repo := repo, db := db }
  else if repo.doesBranchExist (parseMoveArg repo arg).1 then
    match repo.renameCurrent (parseMoveArg repo arg).2 with
    | none => { result := .err .gitRenameFailed, repo := repo, db := db }
    | some repo2 =>
      if db.commitFails then
        { result := .err .commitFailed, repo := repo2, db := db }
      else
        { result := .ok, repo := repo2,
          db := { db with
                  branches := moveFinalTx repo db.branches
                                (parseMoveArg repo arg).1 (parseMoveArg repo arg).2 } }
  else
    if db.commitFails then
      { result := .err .commitFailed, repo := repo, db := db }
    else
      { result := .ok, repo := repo,
        db := { db with
                branches := moveFinalTx repo db.branches
                              (parseMoveArg repo arg).1 (parseMoveArg repo arg).2 } }

/-- `strings.TrimPrefix(s, pre)`. -/
def trimStart (s pre : String) : String :=
  if s.startsWith pre then s.drop pre.length else s

/-- Branch.go lines 113-125: the resolved parent name — the current branch
when no parent was given, the default branch for the remote's symbolic
HEAD, and with a leading "remote/" stripped. -/
def resolveParentName (repo : GitRepo) (parentArg : String) : String :=
  let p0 := if parentArg == "" then repo.currentBranch else parentArg
  let p1 := if p0 == repo.remoteName ++ "/HEAD" then repo.defaultBranch else p0
  trimStart p1 (repo.remoteName ++ "/")

/-- Branch.go lines 154-215: the tail of `createBranch` — resolve the
starting point to a commit, create and check out the new branch there,
stage the new record, and commit. The cleanup registered after checkout
(restore the parent, delete the created branch) is cancelled before
`tx.Commit`, so a failing commit leaves the created branch in place. -/
def createFinish (repo : GitRepo) (db : MetaDB) (branchName parentBranchName : String)
    (isTrunk : Bool) (parentHead checkoutStartingPoint : String) : Outcome :=
  match repo.revParse checkoutStartingPoint with
  | none => { result := .err (.revParseFailed checkoutStartingPoint), repo := repo, db := db }
  | some startPointCommitHash =>
    match repo.checkoutNewBranch branchName startPointCommitHash with
    | none => { result := .err .checkoutFailed, repo := repo, db := db }
    | some repo2 =>
      if db.commitFails then
        { result := .err .commitFailed, repo := repo2, db := db }
      else
        { result := .ok, repo := repo2,
          db := { db with
                  branches := setBranch db.branches
                                { name := branchName,
                                  parent := { name := parentBranchName, trunk := isTrunk,
                                              head := parentHead },
                                  pullRequest := none } } }

/-- `createBranch` (branch.go lines 92-216). As in `branchMove`, error
returns abandon the staged write. -/
def createBranch (repo : GitRepo) (db : MetaDB) (branchName parentArg : String) : Outcome :=
  if repo.isTrunkBranch (resolveParentName repo parentArg) then
    createFinish repo db branchName (resolveParentName repo parentArg) true ""
      (repo.remoteName ++ "/" ++ repo.defaultBranch)
  else
    match repo.revParse (resolveParentName repo parentArg) with
    | none =>
      { result := .err (.revParseFailed (resolveParentName repo parentArg)), repo := repo, db := db }
    | some parentHead =>
      if (findBranch db.branches (resolveParentName repo parentArg)).isNone then
        { result := .err .parentNotAdopted, repo := repo, db := db }
      else
        createFinish repo db branchName (resolveParentName repo parentArg) false parentHead
          (resolveParentName repo parentArg)

/-! ### Store lemmas -/

theorem findBranch_eq_some {s : BranchList} {n : String} {y : Branch}
    (h : findBranch s n = some y) : y ∈ s ∧ y.name = n := by
  induction s with
  | nil => cases h
  | cons b t ih =>
    by_cases hb : b.name = n
    · simp only [findBranch, if_pos hb] at h
      cases h
      exact ⟨List.mem_cons_self _ _, hb⟩
    · simp only [findBranch, if_neg hb] at h
      exact ⟨List.mem_cons_of_mem b (ih h).1, (ih h).2⟩

theorem findBranch_eq_none {s : BranchList} {n : String}
    (h : findBranch s n = none) : ∀ y ∈ s, ¬ y.name = n := by
  induction s with
  | nil => simp
  | cons b t ih =>
    by_cases hb : b.name = n
    · simp only [findBranch, if_pos hb] at h
      cases h
    · simp only [findBranch, if_neg hb] at h
      intro y hy
      rcases List.mem_cons.mp hy with rfl | hy
      · exact hb
      · exact ih h y hy

theorem findBranch_isSome_of_mem {s : BranchList} {n : String} {y : Branch}
    (hy : y ∈ s) (hn : y.name = n) : (findBranch s n).isSome := by
  cases h : findBranch s n with
  | some b => rfl
  | none => exact absurd hn (findBranch_eq_none h y hy)

theorem findBranch_prop {s : BranchList} {n : String} {y : Branch} (P : Branch → Prop)
    (hall : ∀ x ∈ s, x.name = n → P x) (h : findBranch s n = some y) : P y :=
  hall y (findBranch_eq_some h).1 (findBranch_eq_some h).2

theorem setBranch_eq_append {s : BranchList} {b : Branch}
    (h : findBranch s b.name = none) : setBranch s b = s ++ [b] := by
  unfold setBranch
  rw [h]
  rfl

theorem find_setBranch_self (s : BranchList) (b : Branch) :
    findBranch (setBranch s b) b.name = some b := by
  unfold setBranch
  split
  · rename_i h
    induction s with
    | nil => simp [findBranch] at h
    | cons x t ih =>
      by_cases hx : x.name = b.name
      · simp [List.map_cons, if_pos hx, findBranch]
      · simp only [findBranch, if_neg hx] at h
        simp only [List.map_cons, if_neg hx, findBranch]
        exact ih h
  · rename_i h
    have hn : findBranch s b.name = none := by
      cases hf : findBranch s b.name with
      | none => rfl
      | some y => rw [hf] at h; simp at h
    clear h
    induction s with
    | nil => simp [findBranch]
    | cons x t ih =>
      by_cases hx : x.name = b.name
      · simp only [findBranch, if_pos hx] at hn
        cases hn
      · simp only [findBranch, if_neg hx] at hn
        rw [List.cons_append]
        simp only [findBranch]
        rw [if_neg hx]
        exact ih hn

theorem find_setBranch_ne {s : BranchList} {b : Branch} {n : String}
    (h : ¬ n = b.name) : findBranch (setBranch s b) n = findBranch s n := by
  have hbn : ¬ b.name = n := fun e => h e.symm
  unfold setBranch
  split
  · rename_i hs
    clear hs
    induction s with
    | nil => rfl
    | cons x t ih =>
      by_cases hx : x.name = b.name
      · have hxn : ¬ x.name = n := fun e => hbn (hx.symm.trans e)
        simp only [List.map_cons, if_pos hx, findBranch]
        rw [if_neg hbn, if_neg hxn]
        exact ih
      · simp only [List.map_cons, if_neg hx, findBranch]
        by_cases hxn : x.name = n
        · rw [if_pos hxn, if_pos hxn]
        · rw [if_neg hxn, if_neg hxn]
          exact ih
  · rename_i hs
    clear hs
    induction s with
    | nil =>
      simp only [List.nil_append, findBranch]
      rw [if_neg hbn]
    | cons x t ih =>
      rw [List.cons_append]
      simp only [findBranch]
      by_cases hxn : x.name = n
      · rw [if_pos hxn, if_pos hxn]
      · rw [if_neg hxn, if_neg hxn]
        exact ih

theorem find_delete_ne {s : BranchList} {m n : String}
    (h : ¬ n = m) : findBranch (deleteBranch s m) n = findBranch s n := by
  induction s with
  | nil => rfl
  | cons x t ih =>
    by_cases hx : x.name = m
    · have hxn : ¬ x.name = n := fun e => h (e.symm.trans hx)
      simp only [deleteBranch, if_pos hx, findBranch]
      rw [if_neg hxn]
      exact ih
    · simp only [deleteBranch, if_neg hx, findBranch]
      by_cases hxn : x.name = n
      · rw [if_pos hxn, if_pos hxn]
      · rw [if_neg hxn, if_neg hxn]
        exact ih

theorem mem_deleteBranch {s : BranchList} {m : String} {y : Branch}
    (h : y ∈ deleteBranch s m) : y ∈ s ∧ ¬ y.name = m := by
  induction s with
  | nil => cases h
  | cons x t ih =>
    by_cases hx : x.name = m
    · simp only [deleteBranch, if_pos hx] at h
      exact ⟨List.mem_cons_of_mem x (ih h).1, (ih h).2⟩
    · simp only [deleteBranch, if_neg hx] at h
      rcases List.mem_cons.mp h with rfl | h
      · exact ⟨List.mem_cons_self _ _, hx⟩
      · exact ⟨List.mem_cons_of_mem x (ih h).1, (ih h).2⟩

theorem mem_setBranch {s : BranchList} {b y : Branch}
    (h : y ∈ setBranch s b) : y = b ∨ (y ∈ s ∧ ¬ y.name = b.name) := by
  unfold setBranch at h
  split at h
  · obtain ⟨x, hx, hfx⟩ := List.mem_map.mp h
    by_cases hxb : x.name = b.name
    · left
      rw [if_pos hxb] at hfx
      exact hfx.symm
    · right
      rw [if_neg hxb] at hfx
      subst hfx
      exact ⟨hx, hxb⟩
  · rename_i hns
    rcases List.mem_append.mp h with hy | hy
    · right
      refine ⟨hy, ?_⟩
      intro he
      exact hns (findBranch_isSome_of_mem hy he)
    · left
      simpa using hy

theorem mem_childrenOf {s : BranchList} {n : String} {y : Branch} :
    y ∈ childrenOf s n ↔ y ∈ s ∧ y.parent.name = n := by
  induction s with
  | nil => simp [childrenOf]
  | cons x t ih =>
    by_cases hx : x.parent.name = n
    · simp only [childrenOf, if_pos hx]
      constructor
      · intro h
        rcases List.mem_cons.mp h with rfl | h
        · exact ⟨List.mem_cons_self _ _, hx⟩
        · exact ⟨List.mem_cons_of_mem x (ih.mp h).1, (ih.mp h).2⟩
      · intro hmp
        rcases List.mem_cons.mp hmp.1 with rfl | hmem
        · exact List.mem_cons_self y (childrenOf t n)
        · exact List.mem_cons_of_mem x (ih.mpr ⟨hmem, hmp.2⟩)
    · simp only [childrenOf, if_neg hx]
      constructor
      · intro h
        exact ⟨List.mem_cons_of_mem x (ih.mp h).1, (ih.mp h).2⟩
      · intro hmp
        rcases List.mem_cons.mp hmp.1 with rfl | hmem
        · exact absurd hmp.2 hx
        · exact ih.mpr ⟨hmem, hmp.2⟩

theorem mem_setBranch_of_ne {s : BranchList} {b y : Branch}
    (hy : y ∈ s) (hne : ¬ y.name = b.name) : y ∈ setBranch s b := by
  unfold setBranch
  split
  · refine List.mem_map.mpr ⟨y, hy, ?_⟩
    rw [if_neg hne]
  · exact List.mem_append.mpr (Or.inl hy)

theorem mem_deleteBranch_of_ne {s : BranchList} {m : String} {y : Branch}
    (hy : y ∈ s) (hn : ¬ y.name = m) : y ∈ deleteBranch s m := by
  induction s with
  | nil => cases hy
  | cons x t ih =>
    rcases List.mem_cons.mp hy with rfl | hy2
    · simp only [deleteBranch, if_neg hn]
      exact List.mem_cons_self _ _
    · by_cases hx : x.name = m
      · simp only [deleteBranch, if_pos hx]
        exact ih hy2
      · simp only [deleteBranch, if_neg hx]
        exact List.mem_cons_of_mem x (ih hy2)

theorem childrenOf_sublist (s : BranchList) (n : String) : (childrenOf s n).Sublist s := by
  induction s with
  | nil => exact List.Sublist.refl []
  | cons x t ih =>
    by_cases hx : x.parent.name = n
    · simp only [childrenOf, if_pos hx]
      exact List.Sublist.cons₂ x ih
    · simp only [childrenOf, if_neg hx]
      exact List.Sublist.cons x ih

/-! ### Rename staging lemmas -/

theorem stageChildren_nil (t : BranchList) (newB : String) :
    stageChildren t [] newB = t := rfl

theorem stageChildren_cons (t : BranchList) (c : Branch) (cs : List Branch) (newB : String) :
    stageChildren t (c :: cs) newB =
      stageChildren (setBranch t { c with parent := { c.parent with name := newB } }) cs newB :=
  rfl

theorem find_stageChildren_ne {newB n : String} :
    ∀ (cs : List Branch) (t : BranchList), (∀ c ∈ cs, ¬ n = c.name) →
      findBranch (stageChildren t cs newB) n = findBranch t n := by
  intro cs
  induction cs with
  | nil => intro t _; rfl
  | cons c cs ih =>
    intro t h
    rw [stageChildren_cons]
    rw [ih _ (fun d hd => h d (List.mem_cons_of_mem c hd))]
    exact find_setBranch_ne (h c (List.mem_cons_self _ _))

theorem find_stageChildren_mem {newB : String} :
    ∀ (cs : List Branch) (t : BranchList) (b : Branch),
      (cs.map Branch.name).Nodup → b ∈ cs →
      findBranch (stageChildren t cs newB) b.name =
        some { b with parent := { b.parent with name := newB } } := by
  intro cs
  induction cs with
  | nil => intro t b _ hb; cases hb
  | cons c cs ih =>
    intro t b hnd hb
    rw [List.map_cons, List.nodup_cons] at hnd
    rw [stageChildren_cons]
    rcases List.mem_cons.mp hb with rfl | hb2
    · rw [find_stageChildren_ne cs _ ?hcs]
      · exact find_setBranch_self t _
      case hcs =>
        intro d hd heq
        have hdm : d.name ∈ cs.map Branch.name := List.mem_map_of_mem Branch.name hd
        rw [← heq] at hdm
        exact hnd.1 hdm
    · exact ih _ b hnd.2 hb2

theorem stageChildren_no_parent {old newB : String} (hne : ¬ old = newB) :
    ∀ (cs : List Branch) (t : BranchList),
      (∀ y ∈ t, y.parent.name = old → ∃ c ∈ cs, c.name = y.name) →
      ∀ y ∈ stageChildren t cs newB, ¬ y.parent.name = old := by
  intro cs
  induction cs with
  | nil =>
    intro t h y hy hp
    rw [stageChildren_nil] at hy
    obtain ⟨c, hc, _⟩ := h y hy hp
    cases hc
  | cons c cs ih =>
    intro t h y hy
    rw [stageChildren_cons] at hy
    refine ih _ ?_ y hy
    intro z hz hzp
    rcases mem_setBranch hz with rfl | hz2
    · exact absurd hzp.symm hne
    · obtain ⟨c2, hc2, hc2n⟩ := h z hz2.1 hzp
      rcases List.mem_cons.mp hc2 with rfl | hc2t
      · exact absurd hc2n.symm hz2.2
      · exact ⟨c2, hc2t, hc2n⟩

theorem stageChildren_named_all (P : Branch → Prop) (n newB : String) :
    ∀ (cs : List Branch) (t : BranchList),
      (∀ y ∈ t, y.name = n → P y) →
      (∀ c ∈ cs, c.name = n → P { c with parent := { c.parent with name := newB } }) →
      ∀ y ∈ stageChildren t cs newB, y.name = n → P y := by
  intro cs
  induction cs with
  | nil =>
    intro t ht _ y hy
    rw [stageChildren_nil] at hy
    exact ht y hy
  | cons c cs ih =>
    intro t ht hcs y hy
    rw [stageChildren_cons] at hy
    refine ih _ ?_ (fun d hd => hcs d (List.mem_cons_of_mem c hd)) y hy
    intro z hz hzn
    rcases mem_setBranch hz with rfl | hz2
    · exact hcs c (List.mem_cons_self _ _) hzn
    · exact ht z hz2.1 hzn

theorem stageChildren_named_exists (n newB : String) :
    ∀ (cs : List Branch) (t : BranchList),
      (∃ y ∈ t, y.name = n) → ∃ y ∈ stageChildren t cs newB, y.name = n := by
  intro cs
  induction cs with
  | nil =>
    intro t h
    rw [stageChildren_nil]
    exact h
  | cons c cs ih =>
    intro t h
    rw [stageChildren_cons]
    refine ih _ ?_
    obtain ⟨y, hy, hyn⟩ := h
    by_cases hyc : y.name = c.name
    · refine ⟨{ c with parent := { c.parent with name := newB } }, ?_, hyc.symm.trans hyn⟩
      exact (findBranch_eq_some (find_setBranch_self t _)).1
    · exact ⟨y, mem_setBranch_of_ne hy hyc, hyn⟩

/-! ### Lemmas about the staged store of a rename -/

theorem find_named_through (s : BranchList) (n : String) (P : Branch → Prop)
    (hall : ∀ y ∈ s, y.name = n → P y) (hex : ∃ y ∈ s, y.name = n) :
    ∃ c, findBranch s n = some c ∧ P c ∧ c.name = n := by
  obtain ⟨y, hy, hyn⟩ := hex
  have hs : (findBranch s n).isSome := findBranch_isSome_of_mem hy hyn
  cases hf : findBranch s n with
  | none => rw [hf] at hs; cases hs
  | some c => exact ⟨c, rfl, findBranch_prop P hall hf, (findBranch_eq_some hf).2⟩

theorem moveFinalTx_no_parent_old (repo : GitRepo) (tx0 : BranchList) {old newB : String}
    (hne : ¬ old = newB) :
    ∀ y ∈ moveFinalTx repo tx0 old newB, ¬ y.parent.name = old := by
  intro y hy
  unfold moveFinalTx at hy
  have hy2 := mem_deleteBranch hy
  refine stageChildren_no_parent hne _ _ ?_ y hy2.1
  intro z hz hzp
  exact ⟨z, mem_childrenOf.mpr ⟨hz, hzp⟩, rfl⟩

theorem moveFinalTx_find_child (repo : GitRepo) {tx0 : BranchList} {old newB : String} {b : Branch}
    (hnd : (tx0.map Branch.name).Nodup)
    (hfresh : findBranch tx0 newB = none)
    (hb : b ∈ tx0) (hbold : ¬ b.name = old) (hpar : b.parent.name = old) :
    findBranch (moveFinalTx repo tx0 old newB) b.name =
      some { b with parent := { b.parent with name := newB } } := by
  unfold moveFinalTx
  have hfr2 : findBranch tx0 (moveStaged repo tx0 old newB).name = none := hfresh
  rw [setBranch_eq_append hfr2]
  rw [find_delete_ne hbold]
  have hnd1 : ((tx0 ++ [moveStaged repo tx0 old newB]).map Branch.name).Nodup := by
    rw [List.map_append, List.nodup_append]
    refine ⟨hnd, List.nodup_singleton _, ?_⟩
    intro a ha hain
    obtain ⟨y, hy, hyn⟩ := List.mem_map.mp ha
    have han : a = newB := by simpa using hain
    exact findBranch_eq_none hfresh y hy (hyn.trans han)
  exact find_stageChildren_mem _ _ b
    (List.Nodup.sublist (List.Sublist.map Branch.name (childrenOf_sublist _ _)) hnd1)
    (mem_childrenOf.mpr ⟨List.mem_append.mpr (Or.inl hb), hpar⟩)

theorem moveFinalTx_find_new_of_found (repo : GitRepo) {tx0 : BranchList} {old newB : String}
    {oldRec : Branch} (hne : ¬ old = newB)
    (hb : findBranch tx0 old = some oldRec) (hpar : ¬ oldRec.parent.name = old) :
    findBranch (moveFinalTx repo tx0 old newB) newB =
      some { name := newB, parent := oldRec.parent, pullRequest := none } := by
  have hsm : moveStaged repo tx0 old newB =
      { name := newB, parent := oldRec.parent, pullRequest := none } := by
    simp [moveStaged, moveBaseRecord, hb]
  unfold moveFinalTx
  rw [find_delete_ne (fun e => hne e.symm)]
  rw [find_stageChildren_ne _ _ ?hcs]
  · rw [hsm]
    exact find_setBranch_self tx0 _
  case hcs =>
    intro c hc heq
    have hc2 := mem_childrenOf.mp hc
    rcases mem_setBranch hc2.1 with rfl | h2
    · have hcp := hc2.2
      rw [hsm] at hcp
      exact hpar hcp
    · exact h2.2 heq.symm

theorem moveFinalTx_find_new_prop (repo : GitRepo) (tx0 : BranchList) {old newB : String}
    (P : Branch → Prop) (hne : ¬ old = newB)
    (hcm : P (moveStaged repo tx0 old newB))
    (hstage : (moveStaged repo tx0 old newB).parent.name = old →
      P { moveStaged repo tx0 old newB with
            parent := { (moveStaged repo tx0 old newB).parent with name := newB } }) :
    ∃ c, findBranch (moveFinalTx repo tx0 old newB) newB = some c ∧ P c ∧ c.name = newB := by
  unfold moveFinalTx
  have hall1 : ∀ y ∈ setBranch tx0 (moveStaged repo tx0 old newB), y.name = newB → P y := by
    intro y hy hyn
    rcases mem_setBranch hy with rfl | hy2
    · exact hcm
    · exact absurd hyn hy2.2
  have hex1 : ∃ y ∈ setBranch tx0 (moveStaged repo tx0 old newB), y.name = newB :=
    ⟨moveStaged repo tx0 old newB, (findBranch_eq_some (find_setBranch_self tx0 _)).1, rfl⟩
  have hall2 := stageChildren_named_all P newB newB
    (childrenOf (setBranch tx0 (moveStaged repo tx0 old newB)) old)
    (setBranch tx0 (moveStaged repo tx0 old newB)) hall1 ?hcs
  case hcs =>
    intro c hc hcn
    have hc2 := mem_childrenOf.mp hc
    rcases mem_setBranch hc2.1 with rfl | h2
    · exact hstage hc2.2
    · exact absurd hcn h2.2
  have hex2 := stageChildren_named_exists newB newB
    (childrenOf (setBranch tx0 (moveStaged repo tx0 old newB)) old)
    (setBranch tx0 (moveStaged repo tx0 old newB)) hex1
  refine find_named_through _ _ P (fun y hy hyn => hall2 y (mem_deleteBranch hy).1 hyn) ?_
  obtain ⟨y, hy, hyn⟩ := hex2
  exact ⟨y, mem_deleteBranch_of_ne hy (fun e => hne (e.symm.trans hyn)), hyn⟩

/-! ### Case analysis of the two operations -/

theorem branchMove_ok_inv (repo : GitRepo) (db : MetaDB) (arg : String) (force : Bool) :
    ∀ o : Outcome, branchMove repo db arg force = o → o.result = .ok →
      ¬ (parseMoveArg repo arg).1 = (parseMoveArg repo arg).2 ∧
      o.db = { db with
               branches := moveFinalTx repo db.branches
                             (parseMoveArg repo arg).1 (parseMoveArg repo arg).2 } := by
  intro o ho hres
  unfold branchMove at ho
  split at ho
  · subst ho; exact nomatch hres
  · split at ho
    · subst ho; exact nomatch hres
    · rename_i hne
      split at ho
      · subst ho; exact nomatch hres
      · split at ho
        · split at ho
          · subst ho; exact nomatch hres
          · split at ho
            · subst ho; exact nomatch hres
            · subst ho; exact ⟨by simpa using hne, rfl⟩
        · split at ho
          · subst ho; exact nomatch hres
          · subst ho; exact ⟨by simpa using hne, rfl⟩

theorem branchMove_fail_frame (repo : GitRepo) (db : MetaDB) (arg : String) (force : Bool) :
    ∀ o : Outcome, branchMove repo db arg force = o → o.result ≠ .ok →
      o.db = db ∧ (o.result = .err .commitFailed ∨ o.repo = repo) := by
  intro o ho hres
  unfold branchMove at ho
  split at ho
  · subst ho; exact ⟨rfl, Or.inr rfl⟩
  · split at ho
    · subst ho; exact ⟨rfl, Or.inr rfl⟩
    · split at ho
      · subst ho; exact ⟨rfl, Or.inr rfl⟩
      · split at ho
        · split at ho
          · subst ho; exact ⟨rfl, Or.inr rfl⟩
          · split at ho
            · subst ho; exact ⟨rfl, Or.inl rfl⟩
            · subst ho; exact absurd rfl hres
        · split at ho
          · subst ho; exact ⟨rfl, Or.inr rfl⟩
          · subst ho; exact absurd rfl hres

theorem createBranch_fail_frame (repo : GitRepo) (db : MetaDB) (bn parg : String) :
    ∀ o : Outcome, createBranch repo db bn parg = o → o.result ≠ .ok →
      o.db = db ∧ (o.result = .err .commitFailed ∨ o.repo = repo) := by
  intro o ho hres
  unfold createBranch createFinish at ho
  split at ho
  · split at ho
    · subst ho; exact ⟨rfl, Or.inr rfl⟩
    · split at ho
      · subst ho; exact ⟨rfl, Or.inr rfl⟩
      · split at ho
        · subst ho; exact ⟨rfl, Or.inl rfl⟩
        · subst ho; exact absurd rfl hres
  · split at ho
    · subst ho; exact ⟨rfl, Or.inr rfl⟩
    · split at ho
      · subst ho; exact ⟨rfl, Or.inr rfl⟩
      · split at ho
        · subst ho; exact ⟨rfl, Or.inr rfl⟩
        · split at ho
          · subst ho; exact ⟨rfl, Or.inr rfl⟩
          · split at ho
            · subst ho; exact ⟨rfl, Or.inl rfl⟩
            · subst ho; exact absurd rfl hres

/-! ### Concrete fixtures -/

/-- A store with trunk-rooted branch "A" and its child "B". -/
def dbAB : MetaDB :=
  { branches :=
      [{ name := "A", parent := { name := "main", trunk := true, head := "" },
         pullRequest := none },
       { name := "B", parent := { name := "A", trunk := false, head := "h1" },
         pullRequest := none }],
    commitFails := false }

/-- A repository with no local branches (the tracked branches were deleted
locally), so renames take the metadata-only path. -/
def repoMeta : GitRepo :=
  { localBranches := [], remoteRefs := [("origin/main", "c0")], currentBranch := "x",
    defaultBranch := "main", remoteName := "origin", trunks := ["main"] }

/-- A repository with local branches "foo" and "baz", with "baz" checked
out; the local trunk "main" is absent (only its remote-tracking ref). -/
def repoGit : GitRepo :=
  { localBranches := [("foo", "c1"), ("baz", "c2")], remoteRefs := [("origin/main", "c0")],
    currentBranch := "baz", defaultBranch := "main", remoteName := "origin", trunks := ["main"] }

/-- A repository on a local "main" (at commit c1, while the remote-tracking
trunk ref points at c0) with an untracked branch "P2". -/
def repoC4 : GitRepo :=
  { localBranches := [("main", "c1"), ("P2", "c5")], remoteRefs := [("origin/main", "c0")],
    currentBranch := "main", defaultBranch := "main", remoteName := "origin", trunks := ["main"] }

/-- The empty metadata store. -/
def dbEmpty : MetaDB := { branches := [], commitFails := false }

/-- The empty metadata store whose commit fails. -/
def dbCF : MetaDB := { branches := [], commitFails := true }

/-- A store with a single branch "A" that has a linked pull request. -/
def dbPR : MetaDB :=
  { branches :=
      [{ name := "A", parent := { name := "main", trunk := true, head := "" },
         pullRequest := some { number := 7 } }],
    commitFails := false }

/-- A store with trunk-rooted branch "A" and its child "C". -/
def dbW : MetaDB :=
  { branches :=
      [{ name := "A", parent := { name := "main", trunk := true, head := "" },
         pullRequest := none },
       { name := "C", parent := { name := "A", trunk := false, head := "h2" },
         pullRequest := none }],
    commitFails := false }

/-! ### Claim theorems -/

/-- C2: the claim states that no committed store reachable through rename
and adopt contains a parent cycle. The code violates it: renaming "B" to
"A", where "A" is B's own tracked parent, first overwrites A's record with
the re-staged record (whose parent field still names "A"), so the children
scan finds nothing to rewrite, and the rename commits a record that is its
own parent. -/
theorem C2_rename_creates_cycle :
    (branchMove repoMeta dbAB "B:A" false).result = .ok ∧
    (branchMove repoMeta dbAB "B:A" false).db.branches =
      [{ name := "A", parent := { name := "A", trunk := false, head := "h1" },
         pullRequest := none }] ∧
    ∃ b ∈ (branchMove repoMeta dbAB "B:A" false).db.branches, b.parent.name = b.name := by
  decide

/-- C5: the claim states that the repository branch named OLD is the one
renamed. The code instead runs `git branch -m NEW` with a single argument,
which renames the currently checked-out branch: renaming "foo" to "bar"
while "baz" is checked out leaves "foo" in place and renames "baz". -/
theorem C5_git_rename_targets_current_branch :
    (branchMove repoGit dbEmpty "foo:bar" false).result = .ok ∧
    (branchMove repoGit dbEmpty "foo:bar" false).repo.localBranches =
      [("foo", "c1"), ("bar", "c2")] ∧
    (branchMove repoGit dbEmpty "foo:bar" false).repo.doesBranchExist "foo" = true ∧
    (branchMove repoGit dbEmpty "foo:bar" false).repo.doesBranchExist "baz" = false ∧
    (branchMove repoGit dbEmpty "foo:bar" false).repo.currentBranch = "bar" := by
  decide

/-- C1 (counterexample): the claim quantifies over every pre-rename record
whose parent is OLD. When NEW collides with such a child — rename "A" to
"B" where B's parent is "A" — the child's record is overwritten by the
re-staged record before the children scan, the rename still succeeds, and
the surviving record named "B" has parent "main", not NEW. -/
theorem C1_counterexample :
    (branchMove repoMeta dbAB "A:B" false).result = .ok ∧
    ¬ (∀ b ∈ dbAB.branches, b.parent.name = "A" →
        ∃ c ∈ (branchMove repoMeta dbAB "A:B" false).db.branches,
          c.name = b.name ∧ c.parent.name = "B") := by
  decide

/-- C1 (amended): for a successful rename of OLD to NEW on a store with
unique record names where no record named NEW already exists, every record
other than the one named OLD whose parent name was OLD is present after
commit under its own name with parent name NEW, and no committed record
still has parent name OLD. -/
theorem C1_rename_propagation (repo : GitRepo) (db : MetaDB) (arg : String) (force : Bool)
    (hok : (branchMove repo db arg force).result = .ok)
    (hnd : (db.branches.map Branch.name).Nodup)
    (hfresh : findBranch db.branches (parseMoveArg repo arg).2 = none) :
    (∀ b ∈ db.branches, ¬ b.name = (parseMoveArg repo arg).1 →
      b.parent.name = (parseMoveArg repo arg).1 →
      findBranch (branchMove repo db arg force).db.branches b.name =
        some { b with parent := { b.parent with name := (parseMoveArg repo arg).2 } }) ∧
    (∀ b ∈ (branchMove repo db arg force).db.branches,
      ¬ b.parent.name = (parseMoveArg repo arg).1) := by
  obtain ⟨hne, hdb⟩ := branchMove_ok_inv repo db arg force _ rfl hok
  rw [hdb]
  constructor
  · intro b hb hbold hbpar
    exact moveFinalTx_find_child repo hnd hfresh hb hbold hbpar
  · intro b hbmem
    exact moveFinalTx_no_parent_old repo db.branches hne b hbmem

/-- C1 (witness): renaming "A" to "B" over the store with child "C"
rewrites C's parent to "B" and leaves no record with parent "A". -/
theorem C1_rename_propagation_witness :
    findBranch (branchMove repoMeta dbW "A:B" false).db.branches "C" =
      some { name := "C", parent := { name := "B", trunk := false, head := "h2" },
             pullRequest := none } ∧
    ∀ b ∈ (branchMove repoMeta dbW "A:B" false).db.branches, ¬ b.parent.name = "A" := by
  have h := C1_rename_propagation repoMeta dbW "A:B" false (by decide) (by decide) (by decide)
  refine ⟨?_, h.2⟩
  exact h.1
    { name := "C", parent := { name := "A", trunk := false, head := "h2" }, pullRequest := none }
    (by decide) (by decide) (by decide)

/-- C3: renaming a branch whose record carries a pull request link without
force returns the distinct silent-exit signal with code 127 and leaves the
repository and the committed store exactly as they were; with force the
guard signal is never produced, and a successful forced rename stores the
new record with its pull request link cleared. -/
theorem C3_orphan_guard (repo : GitRepo) (db : MetaDB) (arg : String) (b : Branch)
    (hc : ¬ countColons arg > 1)
    (hne : ¬ (parseMoveArg repo arg).1 = (parseMoveArg repo arg).2)
    (hb : findBranch db.branches (parseMoveArg repo arg).1 = some b)
    (hpr : b.pullRequest.isSome) :
    branchMove repo db arg false =
      { result := .err (.exitSilently 127), repo := repo, db := db } ∧
    (branchMove repo db arg true).result ≠ .err (.exitSilently 127) ∧
    ((branchMove repo db arg true).result = .ok →
      ∃ c, findBranch (branchMove repo db arg true).db.branches (parseMoveArg repo arg).2 =
          some c ∧ c.pullRequest = none) := by
  have hbeq : ¬ (((parseMoveArg repo arg).1 == (parseMoveArg repo arg).2) = true) := by
    simpa using hne
  refine ⟨?_, ?_, ?_⟩
  · have hcond :
        (!false && (moveBaseRecord repo db.branches (parseMoveArg repo arg).1).pullRequest.isSome)
          = true := by
      simp [moveBaseRecord, hb, hpr]
    unfold branchMove
    rw [if_neg hc, if_neg hbeq, if_pos hcond]
  · have hcond :
        ¬ ((!true && (moveBaseRecord repo db.branches (parseMoveArg repo arg).1).pullRequest.isSome)
          = true) := by
      simp
    unfold branchMove
    rw [if_neg hc, if_neg hbeq, if_neg hcond]
    split
    · split
      · intro h
        exact nomatch h
      · split
        · intro h
          exact nomatch h
        · intro h
          exact nomatch h
    · split
      · intro h
        exact nomatch h
      · intro h
        exact nomatch h
  · intro hok
    obtain ⟨hne2, hdb⟩ := branchMove_ok_inv repo db arg true _ rfl hok
    rw [hdb]
    obtain ⟨c, hfc, hP, hcn⟩ := moveFinalTx_find_new_prop repo db.branches
      (fun c => c.pullRequest = none) hne2 rfl (fun _ => rfl)
    exact ⟨c, hfc, hP⟩

/-- C3 (witness): on the store whose branch "A" has pull request number 7,
renaming without force yields exit-silently 127 and changes nothing, and
with force the guard signal does not occur. -/
theorem C3_orphan_guard_witness :
    branchMove repoMeta dbPR "A:B" false =
      { result := .err (.exitSilently 127), repo := repoMeta, db := dbPR } ∧
    (branchMove repoMeta dbPR "A:B" true).result ≠ .err (.exitSilently 127) := by
  have h := C3_orphan_guard repoMeta dbPR "A:B"
    { name := "A", parent := { name := "main", trunk := true, head := "" },
      pullRequest := some { number := 7 } }
    (by decide) (by decide) (by decide) (by decide)
  exact ⟨h.1, h.2.1⟩

/-- C4 (counterexample): the claim promises the distinct parent-not-adopted
error for every adopt whose resolved non-trunk parent is untracked; but if
the parent also fails to resolve to a commit (it exists nowhere in the
repository), the operation fails earlier with a rev-parse error instead. -/
theorem C4_counterexample :
    (createBranch repoC4 dbEmpty "feat" "P").result = .err (.revParseFailed "P") ∧
    ¬ ((createBranch repoC4 dbEmpty "feat" "P").result = .err .parentNotAdopted) := by
  decide

/-- C4 (amended): for every adopt whose resolved parent is not a trunk
branch, resolves to a commit, and has no Branch record, the operation
returns exactly the parent-not-adopted error with the repository and the
committed store unchanged (so no branch is created or checked out). -/
theorem C4_parent_not_adopted (repo : GitRepo) (db : MetaDB) (bn parg : String)
    (htrunk : repo.isTrunkBranch (resolveParentName repo parg) = false)
    (hrev : (repo.revParse (resolveParentName repo parg)).isSome)
    (habs : findBranch db.branches (resolveParentName repo parg) = none) :
    createBranch repo db bn parg =
      { result := .err .parentNotAdopted, repo := repo, db := db } := by
  obtain ⟨h, hh⟩ := Option.isSome_iff_exists.mp hrev
  unfold createBranch
  rw [if_neg (by simp [htrunk])]
  simp only [hh]
  rw [if_pos (by simp [habs])]

/-- C4 (witness): adopting "feat" on the untracked non-trunk parent "P2"
(which exists in the repository) returns parent-not-adopted and leaves
both stores unchanged. -/
theorem C4_parent_not_adopted_witness :
    createBranch repoC4 dbEmpty "feat" "P2" =
      { result := .err .parentNotAdopted, repo := repoC4, db := dbEmpty } :=
  C4_parent_not_adopted repoC4 dbEmpty "feat" "P2" (by decide) (by decide) (by decide)

/-- C6 (counterexample): the claim asserts that an adopt failing after the
new branch was created and checked out runs compensations that restore the
original checkout and delete the branch. The cleanup is cancelled before
`tx.Commit`, so when the metadata commit itself fails the created branch
remains and the checkout is not restored. -/
theorem C6_counterexample :
    (createBranch repoC4 dbCF "feat" "").result = .err .commitFailed ∧
    (createBranch repoC4 dbCF "feat" "").repo.doesBranchExist "feat" = true ∧
    (createBranch repoC4 dbCF "feat" "").repo.currentBranch = "feat" ∧
    repoC4.doesBranchExist "feat" = false ∧
    ¬ repoC4.currentBranch = "feat" := by
  decide

/-- C6 (amended): every failing rename or adopt leaves the committed
metadata store unchanged (the transaction is abandoned); and unless the
failure is the final metadata commit itself, the repository is unchanged
as well — for rename the version-control rename either was not reached or
failed atomically, and for adopt no failure path exists between branch
creation and the commit. -/
theorem C6_failure_atomicity (repo : GitRepo) (db : MetaDB) (arg : String) (force : Bool)
    (bn parg : String) :
    ((branchMove repo db arg force).result ≠ .ok →
      (branchMove repo db arg force).db = db ∧
      ((branchMove repo db arg force).result = .err .commitFailed ∨
        (branchMove repo db arg force).repo = repo)) ∧
    ((createBranch repo db bn parg).result ≠ .ok →
      (createBranch repo db bn parg).db = db ∧
      ((createBranch repo db bn parg).result = .err .commitFailed ∨
        (createBranch repo db bn parg).repo = repo)) :=
  ⟨branchMove_fail_frame repo db arg force _ rfl, createBranch_fail_frame repo db bn parg _ rfl⟩

/-- C6 (witness): a malformed rename and an adopt with an unresolvable
parent both fail and leave the committed store (and the repository)
untouched. -/
theorem C6_failure_atomicity_witness :
    (branchMove repoMeta dbAB "a:b:c" false).db = dbAB ∧
    (branchMove repoMeta dbAB "a:b:c" false).repo = repoMeta ∧
    (createBranch repoC4 dbEmpty "feat" "P").db = dbEmpty ∧
    (createBranch repoC4 dbEmpty "feat" "P").repo = repoC4 := by
  have h1 := (C6_failure_atomicity repoMeta dbAB "a:b:c" false "feat" "P").1 (by decide)
  have h2 := (C6_failure_atomicity repoC4 dbEmpty "a:b:c" false "feat" "P").2 (by decide)
  refine ⟨h1.1, ?_, h2.1, ?_⟩
  · rcases h1.2 with h | h
    · exact absurd h (by decide)
    · exact h
  · rcases h2.2 with h | h
    · exact absurd h (by decide)
    · exact h

/-- C7: an adopt whose resolved parent is a trunk branch creates and
checks out the new branch at the commit resolved from the remote-tracking
trunk ref (remote name + "/" + default branch, not the local trunk), and
commits a record whose parent has isTrunk true and an empty headCommit. -/
theorem C7_trunk_adopt (repo : GitRepo) (db : MetaDB) (bn parg startHash : String)
    (htrunk : repo.isTrunkBranch (resolveParentName repo parg) = true)
    (hrev : repo.revParse (repo.remoteName ++ "/" ++ repo.defaultBranch) = some startHash)
    (hco : repo.doesBranchExist bn = false)
    (hcf : db.commitFails = false) :
    createBranch repo db bn parg =
      { result := .ok,
        repo := { repo with
                  localBranches := repo.localBranches ++ [(bn, startHash)],
                  currentBranch := bn },
        db := { db with
                branches := setBranch db.branches
                  { name := bn,
                    parent := { name := resolveParentName repo parg, trunk := true, head := "" },
                    pullRequest := none } } } := by
  unfold createBranch createFinish
  rw [if_pos htrunk]
  simp only [hrev, GitRepo.checkoutNewBranch, hco]
  simp [hcf]

/-- C7 (witness): with the local trunk "main" at commit c1 but the
remote-tracking ref origin/main at c0, adopting "feat" with no explicit
parent creates "feat" at c0 and stores a trunk parent with empty head. -/
theorem C7_trunk_adopt_witness :
    createBranch repoC4 dbEmpty "feat" "" =
      { result := .ok,
        repo := { repoC4 with
                  localBranches := repoC4.localBranches ++ [("feat", "c0")],
                  currentBranch := "feat" },
        db := { dbEmpty with
                branches := setBranch dbEmpty.branches
                  { name := "feat",
                    parent := { name := "main", trunk := true, head := "" },
                    pullRequest := none } } } := by
  have h := C7_trunk_adopt repoC4 dbEmpty "feat" "" "c0" (by decide) (by decide)
    (by decide) (by decide)
  exact h

/-- C8: a rename argument with more than one ':' fails with the
malformed-name validation error, and a parsed old name equal to the new
name fails with the self-rename validation error; in both cases the
outcome carries the repository and the committed store exactly as they
were, so no state was mutated. -/
theorem C8_validation (repo : GitRepo) (db : MetaDB) (arg : String) (force : Bool) :
    (countColons arg > 1 →
      branchMove repo db arg force =
        { result := .err .invalidName, repo := repo, db := db }) ∧
    (¬ countColons arg > 1 → (parseMoveArg repo arg).1 = (parseMoveArg repo arg).2 →
      branchMove repo db arg force =
        { result := .err .selfRename, repo := repo, db := db }) := by
  constructor
  · intro h
    unfold branchMove
    rw [if_pos h]
  · intro h1 h2
    unfold branchMove
    rw [if_neg h1, if_pos (by simpa using h2)]

/-- C8 (witness): "a:b:c" is rejected as malformed and "A:A" as a
self-rename, both leaving the stores untouched. -/
theorem C8_validation_witness :
    branchMove repoMeta dbAB "a:b:c" false =
      { result := .err .invalidName, repo := repoMeta, db := dbAB } ∧
    branchMove repoMeta dbAB "A:A" false =
      { result := .err .selfRename, repo := repoMeta, db := dbAB } :=
  ⟨(C8_validation repoMeta dbAB "a:b:c" false).1 (by decide),
   (C8_validation repoMeta dbAB "A:A" false).2 (by decide) (by decide)⟩

/-- C9: renaming a branch with no metadata record does not fail on that
account: a default record with a trunk parent is synthesized, and when the
old branch does not exist in the repository either, the version-control
rename is skipped and the metadata-only update commits successfully — the
repository is unchanged and the new record has a trunk parent with no pull
request (pointing at the default branch whenever the old name is not the
default branch itself). -/
theorem C9_untracked_rename (repo : GitRepo) (db : MetaDB) (arg : String) (force : Bool)
    (hc : ¬ countColons arg > 1)
    (hne : ¬ (parseMoveArg repo arg).1 = (parseMoveArg repo arg).2)
    (habs : findBranch db.branches (parseMoveArg repo arg).1 = none)
    (hgit : repo.doesBranchExist (parseMoveArg repo arg).1 = false)
    (hcf : db.commitFails = false) :
    (branchMove repo db arg force).result = .ok ∧
    (branchMove repo db arg force).repo = repo ∧
    ∃ c, findBranch (branchMove repo db arg force).db.branches (parseMoveArg repo arg).2 =
        some c ∧
      c.parent.trunk = true ∧ c.pullRequest = none ∧
      (¬ (parseMoveArg repo arg).1 = repo.defaultBranch →
        c = { name := (parseMoveArg repo arg).2,
              parent := { name := repo.defaultBranch, trunk := true, head := "" },
              pullRequest := none }) := by
  have hsm : moveStaged repo db.branches (parseMoveArg repo arg).1 (parseMoveArg repo arg).2 =
      { name := (parseMoveArg repo arg).2,
        parent := { name := repo.defaultBranch, trunk := true, head := "" },
        pullRequest := none } := by
    simp [moveStaged, moveBaseRecord, habs, Branch.zero]
  have hbm : branchMove repo db arg force =
      { result := .ok, repo := repo,
        db := { db with
                branches := moveFinalTx repo db.branches
                              (parseMoveArg repo arg).1 (parseMoveArg repo arg).2 } } := by
    unfold branchMove
    rw [if_neg hc, if_neg (by simpa using hne),
      if_neg (by simp [moveBaseRecord, habs, Branch.zero]),
      if_neg (by simp [hgit]), if_neg (by simp [hcf])]
  rw [hbm]
  refine ⟨rfl, rfl, ?_⟩
  obtain ⟨c, hfc, hP, hcn⟩ := moveFinalTx_find_new_prop repo db.branches
    (fun c => c.parent.trunk = true ∧ c.pullRequest = none ∧
      (¬ (parseMoveArg repo arg).1 = repo.defaultBranch →
        c = { name := (parseMoveArg repo arg).2,
              parent := { name := repo.defaultBranch, trunk := true, head := "" },
              pullRequest := none })) hne
    (by rw [hsm]; exact ⟨rfl, rfl, fun _ => rfl⟩)
    (by
      intro hpar
      rw [hsm] at hpar
      rw [hsm]
      exact ⟨rfl, rfl, fun hod => absurd hpar.symm hod⟩)
  exact ⟨c, hfc, hP.1, hP.2.1, hP.2.2⟩

/-- C9 (witness): renaming the untracked branch "U" (absent from both the
store and the repository) to "V" succeeds, leaves the repository
unchanged, and commits the record V with parent main, isTrunk true, empty
head and no pull request. -/
theorem C9_untracked_rename_witness :
    (branchMove repoMeta dbAB "U:V" false).result = .ok ∧
    (branchMove repoMeta dbAB "U:V" false).repo = repoMeta ∧
    ∃ c, findBranch (branchMove repoMeta dbAB "U:V" false).db.branches "V" = some c ∧
      c = { name := "V", parent := { name := "main", trunk := true, head := "" },
            pullRequest := none } := by
  have h := C9_untracked_rename repoMeta dbAB "U:V" false (by decide) (by decide)
    (by decide) (by decide) (by decide)
  obtain ⟨c, hfc, ht, hp, heq⟩ := h.2.2
  exact ⟨h.1, h.2.1, c, hfc, heq (by decide)⟩

/-- C10 (counterexample): starting from the well-formed store with "A"
(trunk-rooted) and its child "B", the reachable rename "B"→"A" commits a
self-parented record, and the subsequent successful rename "A"→"C" stores
"C" with parent "C" — not the parent field of the old "A" record — so a
successful rename of a tracked branch does not always preserve the parent
field. -/
theorem C10_counterexample :
    (branchMove repoMeta dbAB "B:A" false).result = .ok ∧
    findBranch (branchMove repoMeta dbAB "B:A" false).db.branches "A" =
      some { name := "A", parent := { name := "A", trunk := false, head := "h1" },
             pullRequest := none } ∧
    (branchMove repoMeta (branchMove repoMeta dbAB "B:A" false).db "A:C" false).result = .ok ∧
    (findBranch
        (branchMove repoMeta (branchMove repoMeta dbAB "B:A" false).db "A:C" false).db.branches
        "C").map Branch.parent =
      some { name := "C", trunk := false, head := "h1" } ∧
    ¬ ((findBranch
        (branchMove repoMeta (branchMove repoMeta dbAB "B:A" false).db "A:C" false).db.branches
        "C").map Branch.parent =
      some { name := "A", trunk := false, head := "h1" }) := by
  decide

/-- C10 (amended): for every successful rename of a branch whose existing
record is not its own parent, the record committed under the new name is
exactly the old record with its name replaced and its pull request
cleared — the parent field (name, isTrunk, headCommit) is preserved. -/
theorem C10_rename_frame (repo : GitRepo) (db : MetaDB) (arg : String) (force : Bool)
    (oldRec : Branch)
    (hok : (branchMove repo db arg force).result = .ok)
    (hb : findBranch db.branches (parseMoveArg repo arg).1 = some oldRec)
    (hpar : ¬ oldRec.parent.name = (parseMoveArg repo arg).1) :
    findBranch (branchMove repo db arg force).db.branches (parseMoveArg repo arg).2 =
      some { name := (parseMoveArg repo arg).2, parent := oldRec.parent,
             pullRequest := none } := by
  obtain ⟨hne, hdb⟩ := branchMove_ok_inv repo db arg force _ rfl hok
  rw [hdb]
  exact moveFinalTx_find_new_of_found repo hne hb hpar

/-- C10 (witness): renaming tracked "B" (child of "A") to "C" stores "C"
with B's exact parent field and no pull request. -/
theorem C10_rename_frame_witness :
    findBranch (branchMove repoMeta dbAB "B:C" false).db.branches "C" =
      some { name := "C", parent := { name := "A", trunk := false, head := "h1" },
             pullRequest := none } :=
  C10_rename_frame repoMeta dbAB "B:C" false
    { name := "B", parent := { name := "A", trunk := false, head := "h1" },
      pullRequest := none }
    (by decide) (by decide) (by decide)

end Av
